import Mathlib

/-!
Verification of the GitNote synchronization engine (vscode-gitnote).

Shallow embedding of the repository's core components:
* `debounce` from `src/utils/debounce.ts` (shipped in `src/types/changeDetector.ts`
  of the source snapshot) as a timed state machine over event traces;
* `DesktopGitService.pushWithRetry` from `src/desktopGitService.ts` as a pure
  recursion over per-attempt outcomes;
* `OperationCoordinator` (`src/operationCoordinator.ts`) as pure functions over a
  coordinator snapshot returning the successor snapshot plus the list of
  performed effects, and — for the lock invariant — as a labelled transition
  system over interleavings of operation tasks;
* `formatCommitMessage` from `src/utils/patterns.ts` as a string substitution
  chain.

Times are naturals (milliseconds), mirroring `Date.now()` arithmetic.
-/

namespace GitNote

/-! ## Debounced scheduler (`debounce` in src/utils/debounce.ts)

The closure state of `debounce(fn, delay)` consists of `timer`, `fireAt` and
`lastArgs`.  `timer`/`fireAt`/`lastArgs` are set together on a call and cleared
together on fire/cancel/flush, so the state is faithfully one optional pair
(fire time, recorded arguments). -/

structure DebState (α : Type) where
  pending : Option (Nat × α)
deriving DecidableEq

/-- An event arriving at the debounced function at an absolute time:
a `schedule(args)` call, `cancel()`, or `flush()`. -/
inductive DebEvent (α : Type) where
  | call (t : Nat) (a : α)
  | cancel (t : Nat)
  | flush (t : Nat)
deriving DecidableEq

def DebEvent.time {α : Type} : DebEvent α → Nat
  | .call t _ => t
  | .cancel t => t
  | .flush t => t

/-- If the pending timer is due at or before time `t`, it fires: the wrapped
function is invoked with the recorded arguments, and the timer and arguments
are cleared (the `setTimeout` callback body). -/
def fireDue {α : Type} (s : DebState α) (t : Nat) : DebState α × List (Nat × α) :=
  match s.pending with
  | some (ft, a) => if ft ≤ t then (⟨none⟩, [(ft, a)]) else (s, [])
  | none => (s, [])

/-- Apply one event at its time, after firing any timer already due.
`call`: record the arguments and restart the timer (`clearTimeout` + new
`setTimeout`, `fireAt = now + delay`).  `cancel`: discard timer and arguments.
`flush`: if a timer is pending, invoke immediately with the recorded arguments
and clear. -/
def debApply {α : Type} (d : Nat) (s : DebState α) (e : DebEvent α) :
    DebState α × List (Nat × α) :=
  let p := fireDue s e.time
  match e with
  | .call t a => (⟨some (t + d, a)⟩, p.2)
  | .cancel _ => (⟨none⟩, p.2)
  | .flush t =>
    match p.1.pending with
    | some (_, a) => (⟨none⟩, p.2 ++ [(t, a)])
    | none => (p.1, p.2)

/-- Run a time-ordered event list from a state, collecting every invocation of
the wrapped function as a (time, arguments) pair. -/
def debRunFrom {α : Type} (d : Nat) (s : DebState α) :
    List (DebEvent α) → DebState α × List (Nat × α)
  | [] => (s, [])
  | e :: es =>
    let p := debApply d s e
    let q := debRunFrom d p.1 es
    (q.1, p.2 ++ q.2)

/-- All invocations produced by an event trace followed by letting time pass
until `endTime` with no further events. -/
def debRun {α : Type} (d : Nat) (events : List (DebEvent α)) (endTime : Nat) :
    List (Nat × α) :=
  let p := debRunFrom d ⟨none⟩ events
  p.2 ++ (fireDue p.1 endTime).2

/-- `calls` are issued strictly within the debounce window of each other:
time-ordered, and each call arrives strictly less than `d` after the previous
one (so the previous timer has not yet fired). -/
def callsWithinWindow {α : Type} (d : Nat) : List (Nat × α) → Bool
  | [] => true
  | [_] => true
  | (t₁, _) :: (t₂, a₂) :: r =>
    t₁ ≤ t₂ && t₂ < t₁ + d && callsWithinWindow d ((t₂, a₂) :: r)

def mkCall {α : Type} (p : Nat × α) : DebEvent α := .call p.1 p.2

/-- The last call of a nonempty call sequence `(t, a) :: rest`. -/
def lastCall {α : Type} (t : Nat) (a : α) (rest : List (Nat × α)) : Nat × α :=
  rest.foldl (fun _ p => p) (t, a)

theorem fireDue_none {α : Type} (t : Nat) : fireDue (⟨none⟩ : DebState α) t = (⟨none⟩, []) :=
  rfl

theorem fireDue_not_due {α : Type} (ft t : Nat) (a : α) (h : t < ft) :
    fireDue (⟨some (ft, a)⟩ : DebState α) t = (⟨some (ft, a)⟩, []) := by
  simp only [fireDue]
  rw [if_neg (by omega)]

/-- Processing a concatenation of event lists processes the first list and then
the second from the resulting state, concatenating the invocations. -/
theorem debRunFrom_append {α : Type} (d : Nat) (l₁ l₂ : List (DebEvent α)) :
    ∀ s : DebState α,
      debRunFrom d s (l₁ ++ l₂) =
        ((debRunFrom d (debRunFrom d s l₁).1 l₂).1,
          (debRunFrom d s l₁).2 ++ (debRunFrom d (debRunFrom d s l₁).1 l₂).2) := by
  induction l₁ with
  | nil => intro s; simp [debRunFrom]
  | cons e es ih =>
    intro s
    simp only [List.cons_append, debRunFrom, List.append_eq]
    rw [ih]
    simp [List.append_assoc]

/-- After a burst of calls strictly within the window, starting with the timer
armed for the first call, no invocation has happened and the timer is armed for
the last call's time plus the delay, holding the last call's arguments. -/
theorem debRunFrom_window {α : Type} (d : Nat) :
    ∀ (rest : List (Nat × α)) (t : Nat) (a : α),
      callsWithinWindow d ((t, a) :: rest) = true →
      debRunFrom d ⟨some (t + d, a)⟩ (rest.map mkCall) =
        (⟨some ((lastCall t a rest).1 + d, (lastCall t a rest).2)⟩, []) := by
  intro rest
  induction rest with
  | nil => intro t a _h; rfl
  | cons p r ih =>
    intro t a h
    obtain ⟨t₂, a₂⟩ := p
    simp only [callsWithinWindow, Bool.and_eq_true, decide_eq_true_eq] at h
    obtain ⟨⟨h₁, h₂⟩, h₃⟩ := h
    have happ : debApply d (⟨some (t + d, a)⟩ : DebState α) (mkCall (t₂, a₂)) =
        (⟨some (t₂ + d, a₂)⟩, []) := by
      simp [debApply, mkCall, DebEvent.time, fireDue_not_due (t + d) t₂ a h₂]
    simp only [List.map_cons, debRunFrom, happ]
    have := ih t₂ a₂ h₃
    simp only [this]
    rfl

/-- C2. For every sequence of `schedule()` calls issued strictly within the
debounce window of each other (and no other events), the wrapped operation is
invoked exactly once, at the last call's time plus the delay, with the
arguments of the last call. -/
theorem debounce_coalesces_to_last_call {α : Type} (d : Nat) (t : Nat) (a : α)
    (rest : List (Nat × α)) (endTime : Nat)
    (hwin : callsWithinWindow d ((t, a) :: rest) = true)
    (hend : (lastCall t a rest).1 + d ≤ endTime) :
    debRun d (((t, a) :: rest).map mkCall) endTime =
      [((lastCall t a rest).1 + d, (lastCall t a rest).2)] := by
  simp only [debRun, List.map_cons, debRunFrom]
  have happ : debApply d (⟨none⟩ : DebState α) (mkCall (t, a)) = (⟨some (t + d, a)⟩, []) := by
    simp [debApply, mkCall, DebEvent.time, fireDue]
  simp only [happ, debRunFrom_window d rest t a hwin]
  simp [fireDue, hend]

theorem debounce_coalesces_to_last_call_witness :
    callsWithinWindow 1000 [(0, 1), (500, 2), (900, 3)] = true ∧
      (lastCall 0 1 [(500, 2), (900, 3)]).1 + 1000 ≤ 5000 ∧
      debRun 1000 ([(0, (1 : Nat)), (500, 2), (900, 3)].map mkCall) 5000 = [(1900, 3)] :=
  ⟨by decide, by decide,
    debounce_coalesces_to_last_call 1000 0 1 [(500, 2), (900, 3)] 5000 (by decide) (by decide)⟩

/-- C8. If `cancel()` is called while a timer is pending and before it fires
(for example from the branch-checkout handler, which cancels the pending
debounced commit), the wrapped operation is never invoked for that scheduling
cycle: a burst of calls within the window followed by a cancel strictly before
the pending fire time produces no invocation at all, however much time then
passes. -/
theorem debounce_cancel_before_fire {α : Type} (d : Nat) (t : Nat) (a : α)
    (rest : List (Nat × α)) (tc endTime : Nat)
    (hwin : callsWithinWindow d ((t, a) :: rest) = true)
    (hc : tc < (lastCall t a rest).1 + d) :
    debRun d (((t, a) :: rest).map mkCall ++ [.cancel tc]) endTime = [] := by
  have happ : debApply d (⟨none⟩ : DebState α) (mkCall (t, a)) = (⟨some (t + d, a)⟩, []) := by
    simp [debApply, mkCall, DebEvent.time, fireDue]
  have hcancel : debApply d (⟨some ((lastCall t a rest).1 + d, (lastCall t a rest).2)⟩ :
      DebState α) (.cancel tc) = (⟨none⟩, []) := by
    simp [debApply, DebEvent.time,
      fireDue_not_due ((lastCall t a rest).1 + d) tc (lastCall t a rest).2 hc]
  have hcalls : debRunFrom d (⟨none⟩ : DebState α) (((t, a) :: rest).map mkCall) =
      (⟨some ((lastCall t a rest).1 + d, (lastCall t a rest).2)⟩, []) := by
    simp only [List.map_cons, debRunFrom, happ, debRunFrom_window d rest t a hwin]
    rfl
  simp only [debRun, debRunFrom_append, hcalls]
  simp [debRunFrom, hcancel, fireDue_none]

theorem debounce_cancel_before_fire_witness :
    callsWithinWindow 1000 [(0, (1 : Nat)), (500, 2)] = true ∧
      (1200 : Nat) < (lastCall 0 1 [(500, 2)]).1 + 1000 ∧
      debRun 1000 ([(0, (1 : Nat)), (500, 2)].map mkCall ++ [.cancel 1200]) 99999 = [] :=
  ⟨by decide, by decide,
    debounce_cancel_before_fire 1000 0 1 [(500, 2)] 1200 99999 (by decide) (by decide)⟩

/-! ## Push retry (`DesktopGitService.pushWithRetry` in src/desktopGitService.ts) -/

def MAX_RETRIES : Nat := 3
def BASE_RETRY_DELAY : Nat := 30000

/-- Summary of one full `pushWithRetry` cascade: how many times
`repository.push()` ends up being invoked (counting retries fired by the
scheduled timers), the delay scheduled before each retry, and whether the
terminal "Push failed after N retries" warning was shown. -/
structure PushSim where
  calls : Nat
  delays : List Nat
  warned : Bool
deriving DecidableEq

/-- `pushWithRetry(attempt)` with the per-attempt outcome given by `outcome`
(`outcome n = true` when the `n`-th invocation of `repository.push()` succeeds).
The source recurses on `attempt` guarded by `attempt < MAX_RETRIES`; here the
recursion is structural on `remaining = MAX_RETRIES - attempt`, which is
equivalent for every `attempt ≤ MAX_RETRIES` because
`attempt < MAX_RETRIES ↔ remaining ≠ 0` then.  On failure with retries left,
the retry delay is `BASE_RETRY_DELAY * 2 ^ attempt`; after the last allowed
attempt fails, the warning is surfaced and nothing further is scheduled. -/
def pushGo (outcome : Nat → Bool) : Nat → Nat → PushSim
  | attempt, remaining =>
    if outcome attempt then ⟨1, [], false⟩
    else
      match remaining with
      | 0 => ⟨1, [], true⟩
      | r + 1 =>
        let rest := pushGo outcome (attempt + 1) r
        ⟨rest.calls + 1, BASE_RETRY_DELAY * 2 ^ attempt :: rest.delays, rest.warned⟩

def pushWithRetry (outcome : Nat → Bool) (attempt : Nat) : PushSim :=
  pushGo outcome attempt (MAX_RETRIES - attempt)

/-- `DesktopGitService.push()`: skip entirely without a remote, else run the
retry cascade from attempt 0. -/
def desktopPush (hasRemote : Bool) (outcome : Nat → Bool) : PushSim :=
  if hasRemote then pushWithRetry outcome 0 else ⟨0, [], false⟩

/-- C3 counterexample. The claim says that when every attempt fails the
backend's push is invoked exactly 3 times; in the code `pushWithRetry(0)`
makes the initial attempt and then, while `attempt < MAX_RETRIES = 3`, retries
— so the underlying push runs 4 times (attempts 0, 1, 2, 3), not 3. -/
theorem push_all_fail_invokes_four_not_three :
    ¬ (pushWithRetry (fun _ => false) 0).calls = 3 := by decide

/-- C3 amended. When push fails on every attempt, the underlying push is
invoked exactly 4 times (one initial attempt plus `MAX_RETRIES = 3` retries),
the scheduled inter-attempt delays are 30s, 60s and 120s (the delay before
retry `n+1` is `BASE_RETRY_DELAY * 2 ^ n`), the terminal user-visible warning
is surfaced, and no fifth attempt is scheduled (no fourth delay exists). -/
theorem push_all_fail_retry_schedule :
    pushWithRetry (fun _ => false) 0 =
      ⟨4, [BASE_RETRY_DELAY * 2 ^ 0, BASE_RETRY_DELAY * 2 ^ 1, BASE_RETRY_DELAY * 2 ^ 2],
        true⟩ ∧
    (pushWithRetry (fun _ => false) 0).delays = [30000, 60000, 120000] ∧
    (pushWithRetry (fun _ => false) 0).delays.length = MAX_RETRIES := by
  refine ⟨?_, by decide, by decide⟩
  decide

/-! ## Operation coordinator (`OperationCoordinator` in src/operationCoordinator.ts)

The coordinator's decision logic is synchronous between `await` points; each
public operation is embedded as a pure function from a snapshot of the
coordinator's fields (plus the outcomes of the awaited backend operations) to
the successor snapshot and the list of performed effects, in program order. -/

inductive ConflictBehavior where
  | pause
  | notify
deriving DecidableEq

structure GitNoteConfig where
  enabled : Bool
  commitDelay : Nat
  autoPush : Bool
  pullOnStartup : Bool
  pullAfterIdle : Bool
  idleThreshold : Nat
  filePattern : String
  excludeBranches : List String
  commitMessageFormat : String
  commitOnClose : Bool
  showCountdown : Bool
  conflictBehavior : ConflictBehavior
deriving DecidableEq

inductive CoordinatorState where
  | idle
  | watching
  | committing
  | pushing
  | pulling
  | error
  | paused
deriving DecidableEq

/-- The `IGitService` surface the coordinator reads: status properties plus the
current snapshot of matching changes (`getMatchingChanges`). -/
structure GitModel where
  hasRemote : Bool
  currentBranch : Option String
  hasConflicts : Bool
  isRebasing : Bool
  matchingChanges : List String
deriving DecidableEq

structure Coord where
  config : GitNoteConfig
  state : CoordinatorState
  locked : Bool
  supportsFullGit : Bool
  git : GitModel
deriving DecidableEq

/-- Observable actions of a coordinator operation, in program order. -/
inductive Effect where
  | fetchBranch
  | stageAndCommit (files : List String)
  | push
  | pull
  | cancelRetry
  | cancelDebounce
  | rescheduleDebounce
  | stopCountdown
  | warn (msg : String)
  | scheduleErrorRecovery
deriving DecidableEq

/-- Backend-mutating effects: the three repository operations commit, push, pull. -/
def Effect.isBackendMutation : Effect → Bool
  | .stageAndCommit _ => true
  | .push => true
  | .pull => true
  | _ => false

def isBranchExcluded (c : Coord) : Bool :=
  match c.git.currentBranch with
  | none => false
  | some b => c.config.excludeBranches.contains b

/-- `handleConflicts`: policy `pause` enters `paused`, policy `notify` sets
`watching`; both surface a user-visible warning. -/
def handleConflicts (c : Coord) : Coord × List Effect :=
  match c.config.conflictBehavior with
  | .pause => ({ c with state := .paused }, [.warn "conflicts-pause"])
  | .notify => ({ c with state := .watching }, [.warn "conflicts-notify"])

/-- `executePull`, with `pullOk` the outcome of the awaited `gitService.pull()`.
Locked → skip (logged, not queued).  No remote → no-op.  Otherwise acquire the
lock, enter `pulling`, pull; on success return to `watching` only when still
enabled and not branch-excluded; on failure route to conflict handling if
conflicts are present, else `error` with the 5s recovery timer.  The lock is
released on every path (`finally`). -/
def executePull (c : Coord) (pullOk : Bool) : Coord × List Effect :=
  if c.locked then (c, [])
  else if !c.git.hasRemote then (c, [])
  else
    let c₁ : Coord := { c with locked := true, state := .pulling }
    if pullOk then
      let c₂ : Coord :=
        if c₁.config.enabled && !isBranchExcluded c₁ then { c₁ with state := .watching }
        else c₁
      ({ c₂ with locked := false }, [.pull])
    else if c₁.git.hasConflicts then
      let p := handleConflicts c₁
      ({ p.1 with locked := false }, .pull :: p.2)
    else
      ({ c₁ with state := .error, locked := false }, [.pull, .scheduleErrorRecovery])

/-- Outcomes of the operations awaited inside the commit pipeline. -/
structure PipelineEnv where
  /-- whether `stageAndCommit` resolves (else it rejects and the catch runs) -/
  commitOk : Bool
  /-- whether `gitService.push()` rejects; neither shipped implementation's
  `push` ever rejects (desktop swallows into the retry cascade, web is a
  no-op), but the `IGitService` interface permits it -/
  pushThrows : Bool
  /-- `getMatchingChanges` re-read after the successful commit -/
  changesAfterCommit : List String
deriving DecidableEq

/-- `executeCommitPipeline` (the debounced commit firing).  In source order:
stop the countdown; no-op when disabled or `paused`/`idle`; when the lock is
held, reschedule the debounce instead of dropping the work; desktop-only hazard
checks (conflicts, rebase, branch exclusion); no-op when no matching changes;
otherwise acquire the lock, `committing`, stage+commit, optionally `pushing` +
push, back to `watching`, reschedule if changes arrived during the commit;
exceptions set `error` with the 5s recovery; the lock is released in the
`finally`. -/
def executeCommitPipeline (c : Coord) (env : PipelineEnv) : Coord × List Effect :=
  if !c.config.enabled || c.state = CoordinatorState.paused
      || c.state = CoordinatorState.idle then
    (c, [.stopCountdown])
  else if c.locked then (c, [.stopCountdown, .rescheduleDebounce])
  else if c.supportsFullGit && c.git.hasConflicts then
    let p := handleConflicts c
    (p.1, .stopCountdown :: p.2)
  else if c.supportsFullGit && c.git.isRebasing then
    ({ c with state := .paused }, [.stopCountdown])
  else if c.supportsFullGit && isBranchExcluded c then (c, [.stopCountdown])
  else if c.git.matchingChanges.isEmpty then (c, [.stopCountdown])
  else
    let changes := c.git.matchingChanges
    let c₁ : Coord := { c with locked := true, state := .committing }
    if !env.commitOk then
      ({ c₁ with state := .error, locked := false },
        [.stopCountdown, .stageAndCommit changes, .scheduleErrorRecovery])
    else if c₁.config.autoPush && c₁.supportsFullGit then
      if env.pushThrows then
        ({ c₁ with state := .error, locked := false },
          [.stopCountdown, .stageAndCommit changes, .push, .scheduleErrorRecovery])
      else
        ({ c₁ with state := .watching, locked := false },
          [.stopCountdown, .stageAndCommit changes, .push]
            ++ if env.changesAfterCommit.isEmpty then [] else [.rescheduleDebounce])
    else
      ({ c₁ with state := .watching, locked := false },
        [.stopCountdown, .stageAndCommit changes]
          ++ if env.changesAfterCommit.isEmpty then [] else [.rescheduleDebounce])

/-- `start()`: when disabled stay as-is; refresh the branch (`fetchBranch`);
if the branch is excluded enter `paused` and stop; else enter `watching` and,
when pull-on-startup is configured and a remote exists, perform a pull. -/
def start (c : Coord) (pullOk : Bool) : Coord × List Effect :=
  if !c.config.enabled then (c, [])
  else if isBranchExcluded c then ({ c with state := .paused }, [.fetchBranch])
  else
    let c₁ : Coord := { c with state := .watching }
    if c₁.config.pullOnStartup && c₁.git.hasRemote then
      let p := executePull c₁ pullOk
      (p.1, .fetchBranch :: p.2)
    else (c₁, [.fetchBranch])

/-- `checkBranchExclusion` (run on branch checkout): enter `paused` when the
new branch is excluded; resume from `paused` to `watching` when no longer
excluded and the engine is enabled; otherwise leave the state alone. -/
def checkBranchExclusion (c : Coord) : Coord :=
  if isBranchExcluded c then { c with state := .paused }
  else if c.state = CoordinatorState.paused && c.config.enabled then
    { c with state := .watching }
  else c

/-- C4. When the debounced commit fires while the lock is held — which in the
source can only happen with the engine enabled and the state not `paused`/
`idle`, since stop/disable/checkout all cancel the pending debounce before or
while those states are entered — the pipeline only stops the countdown and
reschedules the debounce: no backend operation is invoked and the pending
change work is not dropped.  And whenever `executePull` is entered while the
lock is held it is skipped outright (logged): no state change, no backend
call, nothing queued. -/
theorem locked_commit_reschedules_and_locked_pull_skips (c : Coord) (env : PipelineEnv)
    (pullOk : Bool) (hen : c.config.enabled = true) (hp : c.state ≠ CoordinatorState.paused)
    (hi : c.state ≠ CoordinatorState.idle) (hl : c.locked = true) :
    executeCommitPipeline c env = (c, [.stopCountdown, .rescheduleDebounce]) ∧
      executePull c pullOk = (c, []) := by
  constructor
  · simp [executeCommitPipeline, hen, hp, hi, hl]
  · simp [executePull, hl]

theorem locked_commit_reschedules_and_locked_pull_skips_witness :
    (let c : Coord :=
      { config :=
          { enabled := true, commitDelay := 30000, autoPush := true, pullOnStartup := true,
            pullAfterIdle := true, idleThreshold := 300000, filePattern := "**/*",
            excludeBranches := [], commitMessageFormat := "GitNote: {timestamp}",
            commitOnClose := true, showCountdown := true, conflictBehavior := .pause }
        state := .pulling, locked := true, supportsFullGit := true
        git :=
          { hasRemote := true, currentBranch := some "main", hasConflicts := false,
            isRebasing := false, matchingChanges := ["notes.md"] } }
    executeCommitPipeline c { commitOk := true, pushThrows := false, changesAfterCommit := [] } =
        (c, [.stopCountdown, .rescheduleDebounce]) ∧
      executePull c true = (c, [])) :=
  locked_commit_reschedules_and_locked_pull_skips _ _ true rfl
    (by decide) (by decide) rfl

/-- C5. With `enabled = true` and the backend's resolved current branch present
in the exclusion list, `start()` ends in `paused` having performed only the
branch refresh: no commit, no push and no pull is attempted against the
backend. -/
theorem start_excluded_branch_pauses (c : Coord) (pullOk : Bool) (b : String)
    (hen : c.config.enabled = true) (hb : c.git.currentBranch = some b)
    (hex : c.config.excludeBranches.contains b = true) :
    start c pullOk = ({ c with state := .paused }, [.fetchBranch]) ∧
      ((start c pullOk).2.all fun e => !e.isBackendMutation) = true := by
  have hexc : isBranchExcluded c = true := by
    simp only [isBranchExcluded, hb]
    simpa using hex
  constructor
  · simp [start, hen, hexc]
  · simp [start, hen, hexc, Effect.isBackendMutation]

theorem start_excluded_branch_pauses_witness :
    (let c : Coord :=
      { config :=
          { enabled := true, commitDelay := 30000, autoPush := true, pullOnStartup := true,
            pullAfterIdle := true, idleThreshold := 300000, filePattern := "**/*",
            excludeBranches := ["main", "release"], commitMessageFormat := "GitNote: {timestamp}",
            commitOnClose := true, showCountdown := true, conflictBehavior := .pause }
        state := .idle, locked := false, supportsFullGit := true
        git :=
          { hasRemote := true, currentBranch := some "main", hasConflicts := false,
            isRebasing := false, matchingChanges := ["notes.md"] } }
    start c true = ({ c with state := .paused }, [.fetchBranch]) ∧
      ((start c true).2.all fun e => !e.isBackendMutation) = true) :=
  start_excluded_branch_pauses _ true "main" rfl rfl rfl

/-- C10. When the backend's current branch is `undefined` (unresolved or
unavailable, as in the web backend), the branch is never treated as excluded,
whatever the exclusion list: `isBranchExcluded` is false; `start()` with
`enabled = true` and a successful startup pull reaches `watching`, not
`paused`; and `checkBranchExclusion` never newly enters `paused`. -/
theorem undefined_branch_never_excluded (c : Coord) (pullOk : Bool)
    (hb : c.git.currentBranch = none) :
    isBranchExcluded c = false ∧
      (c.config.enabled = true → pullOk = true → (start c pullOk).1.state = .watching) ∧
      (c.state ≠ CoordinatorState.paused →
        (checkBranchExclusion c).state ≠ CoordinatorState.paused) := by
  have hexc : isBranchExcluded c = false := by simp [isBranchExcluded, hb]
  refine ⟨hexc, ?_, ?_⟩
  · intro hen hok
    subst hok
    simp only [start, executePull, hen, hexc, Bool.not_true, Bool.false_eq_true, if_false,
      if_true]
    split_ifs <;> simp_all [isBranchExcluded, hb]
  · intro hpaused
    simp only [checkBranchExclusion, hexc]
    intro hcontra
    by_cases hres : c.state = CoordinatorState.paused && c.config.enabled
    · simp [hres] at hcontra
    · simp [hres] at hcontra
      exact hpaused hcontra

theorem undefined_branch_never_excluded_witness :
    (let c : Coord :=
      { config :=
          { enabled := true, commitDelay := 30000, autoPush := true, pullOnStartup := false,
            pullAfterIdle := false, idleThreshold := 300000, filePattern := "**/*",
            excludeBranches := ["main"], commitMessageFormat := "GitNote: {timestamp}",
            commitOnClose := true, showCountdown := true, conflictBehavior := .pause }
        state := .idle, locked := false, supportsFullGit := false
        git :=
          { hasRemote := true, currentBranch := none, hasConflicts := false,
            isRebasing := false, matchingChanges := [] } }
    isBranchExcluded c = false ∧
      (c.config.enabled = true → true = true → (start c true).1.state = .watching) ∧
      (c.state ≠ CoordinatorState.paused →
        (checkBranchExclusion c).state ≠ CoordinatorState.paused)) :=
  undefined_branch_never_excluded _ true rfl

/-! ## Mutual exclusion of commit / push / pull (the coordinator lock)

The host is single-threaded and event-driven: code between `await` points runs
atomically, and "concurrency" is the interleaving of independently arriving
operation invocations at those suspension points.  Each invocation of
`executeCommitPipeline`, `executePull` or `flushOnClose` is a task:

* its synchronous prefix either exits on a guard (disabled, locked →
  reschedule/skip, hazard, no changes) or — when the lock flag is observed
  false — sets it and enters the critical section (in the source the
  `this.locked` check, the following synchronous checks and
  `acquireLock`'s `this.locked = true` run without an intervening suspension);
* `flushOnClose` alone may instead enter `acquireLock`'s polling loop when the
  lock is held, re-checking after each sleep;
* inside the critical section each backend `await` (stage+commit, push, pull)
  is a step, and every exit path — normal completion or a thrown error — runs
  the `finally` that clears the lock. -/

inductive OpKind where
  | commitOp
  | pullOp
  | flushOp
deriving DecidableEq

inductive Phase where
  /-- invocation arrived, synchronous prefix not yet run -/
  | entry
  /-- `flushOnClose` blocked in `acquireLock`'s polling loop -/
  | waiting
  /-- holding the lock with `n` backend awaits still to run -/
  | critical (n : Nat)
  /-- returned (guard exit, completion, or caught exception) -/
  | finished
deriving DecidableEq

structure OpTask where
  kind : OpKind
  phase : Phase
deriving DecidableEq

/-- A task is in flight when it holds the lock and is running one of
{commit, push, pull} against the backend. -/
def OpTask.inFlight (t : OpTask) : Bool :=
  match t.phase with
  | .critical _ => true
  | _ => false

structure SysState where
  locked : Bool
  tasks : List OpTask
deriving DecidableEq

/-- One atomic step of the interleaved system.  Tasks are addressed by their
position (`l₁ ++ task :: l₂`). -/
inductive LockStep : SysState → SysState → Prop where
  /-- a new signal spawns an operation invocation -/
  | spawn (lk : Bool) (ts : List OpTask) (k : OpKind) :
      LockStep ⟨lk, ts⟩ ⟨lk, ts ++ [⟨k, .entry⟩]⟩
  /-- the synchronous prefix exits without acquiring: disabled / hazard /
  no changes, or (commit) locked → reschedule, or (pull) locked → skip -/
  | guardExit (lk : Bool) (l₁ l₂ : List OpTask) (k : OpKind) :
      LockStep ⟨lk, l₁ ++ ⟨k, .entry⟩ :: l₂⟩ ⟨lk, l₁ ++ ⟨k, .finished⟩ :: l₂⟩
  /-- the prefix observes the lock free and acquires it atomically, entering
  the critical section with `n` backend awaits ahead -/
  | acquire (l₁ l₂ : List OpTask) (k : OpKind) (n : Nat) :
      LockStep ⟨false, l₁ ++ ⟨k, .entry⟩ :: l₂⟩ ⟨true, l₁ ++ ⟨k, .critical n⟩ :: l₂⟩
  /-- `flushOnClose` finds the lock held and parks in the polling loop -/
  | startWait (l₁ l₂ : List OpTask) :
      LockStep ⟨true, l₁ ++ ⟨.flushOp, .entry⟩ :: l₂⟩ ⟨true, l₁ ++ ⟨.flushOp, .waiting⟩ :: l₂⟩
  /-- a poll wakes with the lock free and acquires it -/
  | acquireFromWait (l₁ l₂ : List OpTask) (n : Nat) :
      LockStep ⟨false, l₁ ++ ⟨.flushOp, .waiting⟩ :: l₂⟩
        ⟨true, l₁ ++ ⟨.flushOp, .critical n⟩ :: l₂⟩
  /-- one backend await inside the critical section completes -/
  | opStep (lk : Bool) (l₁ l₂ : List OpTask) (k : OpKind) (n : Nat) :
      LockStep ⟨lk, l₁ ++ ⟨k, .critical (n + 1)⟩ :: l₂⟩ ⟨lk, l₁ ++ ⟨k, .critical n⟩ :: l₂⟩
  /-- the critical section exits — normal completion or a thrown error — and
  the `finally` clears the lock -/
  | exitCritical (lk : Bool) (l₁ l₂ : List OpTask) (k : OpKind) (n : Nat) :
      LockStep ⟨lk, l₁ ++ ⟨k, .critical n⟩ :: l₂⟩ ⟨false, l₁ ++ ⟨k, .finished⟩ :: l₂⟩

def initSys : SysState := ⟨false, []⟩

def SysReachable (s : SysState) : Prop := Relation.ReflTransGen LockStep initSys s

/-- The number of in-flight tasks. -/
def flyCount (ts : List OpTask) : Nat :=
  ts.countP (fun t => OpTask.inFlight t)

theorem flyCount_append (l₁ l₂ : List OpTask) :
    flyCount (l₁ ++ l₂) = flyCount l₁ + flyCount l₂ :=
  List.countP_append _ _ _

theorem flyCount_nil : flyCount [] = 0 := rfl

theorem flyCount_cons (t : OpTask) (l : List OpTask) :
    flyCount (t :: l) = flyCount l + (OpTask.inFlight t).toNat := by
  cases h : OpTask.inFlight t <;> simp [flyCount, List.countP_cons, h]

theorem inFlight_entry (k : OpKind) : OpTask.inFlight ⟨k, .entry⟩ = false := rfl

theorem inFlight_waiting (k : OpKind) : OpTask.inFlight ⟨k, .waiting⟩ = false := rfl

theorem inFlight_critical (k : OpKind) (n : Nat) :
    OpTask.inFlight ⟨k, .critical n⟩ = true := rfl

theorem inFlight_finished (k : OpKind) : OpTask.inFlight ⟨k, .finished⟩ = false := rfl

/-- The lock invariant: the number of in-flight tasks is 0 when the lock flag
is clear and 1 when it is set. -/
def LockInv (s : SysState) : Prop :=
  flyCount s.tasks = s.locked.toNat

theorem lockInv_init : LockInv initSys := by
  simp [LockInv, flyCount, initSys]

theorem lockInv_step (s s' : SysState) (h : LockStep s s') (hinv : LockInv s) : LockInv s' := by
  cases h with
  | spawn lk ts k =>
    simp only [LockInv, flyCount_append, flyCount_cons, flyCount_nil, inFlight_entry,
      Bool.toNat_false] at hinv ⊢
    omega
  | guardExit lk l₁ l₂ k =>
    simp only [LockInv, flyCount_append, flyCount_cons, inFlight_entry, inFlight_finished,
      Bool.toNat_false] at hinv ⊢
    exact hinv
  | acquire l₁ l₂ k n =>
    simp only [LockInv, flyCount_append, flyCount_cons, inFlight_entry, inFlight_critical,
      Bool.toNat_false, Bool.toNat_true] at hinv ⊢
    omega
  | startWait l₁ l₂ =>
    simp only [LockInv, flyCount_append, flyCount_cons, inFlight_entry, inFlight_waiting,
      Bool.toNat_true] at hinv ⊢
    exact hinv
  | acquireFromWait l₁ l₂ n =>
    simp only [LockInv, flyCount_append, flyCount_cons, inFlight_waiting, inFlight_critical,
      Bool.toNat_false, Bool.toNat_true] at hinv ⊢
    omega
  | opStep lk l₁ l₂ k n =>
    simp only [LockInv, flyCount_append, flyCount_cons, inFlight_critical] at hinv ⊢
    exact hinv
  | exitCritical lk l₁ l₂ k n =>
    simp only [LockInv, flyCount_append, flyCount_cons, inFlight_critical, inFlight_finished,
      Bool.toNat_false, Bool.toNat_true] at hinv ⊢
    cases lk with
    | false => simp only [Bool.toNat_false] at hinv; omega
    | true => simp only [Bool.toNat_true] at hinv; omega

theorem lockInv_reachable (s : SysState) (h : SysReachable s) : LockInv s := by
  induction h with
  | refl => exact lockInv_init
  | tail _hsteps hstep ih => exact lockInv_step _ _ hstep ih

/-- C1. For every interleaving of signals and operations on one coordinator
instance, at most one of {commit, push, pull} is in flight at any instant;
every such operation holds the mutual-exclusion lock while it touches the
backend (any in-flight task implies the lock flag is set — acquisition happens
before the first backend call), and the lock is released on every exit path
(a finished task never keeps the flag: the count matches the flag exactly). -/
theorem lock_mutual_exclusion (s : SysState) (h : SysReachable s) :
    flyCount s.tasks ≤ 1 ∧
      (flyCount s.tasks = 1 → s.locked = true) ∧
      (s.locked = false → flyCount s.tasks = 0) := by
  have hinv := lockInv_reachable s h
  simp only [LockInv] at hinv
  obtain ⟨lk, ts⟩ := s
  cases lk with
  | false =>
    rw [Bool.toNat_false] at hinv
    exact ⟨by omega, fun hone => absurd (hinv ▸ hone) (by omega), fun _ => hinv⟩
  | true =>
    rw [Bool.toNat_true] at hinv
    exact ⟨by omega, fun _ => rfl, fun hfalse => by cases hfalse⟩

theorem lock_mutual_exclusion_witness :
    (flyCount (⟨true, [⟨.pullOp, .finished⟩, ⟨.commitOp, .critical 2⟩]⟩ :
        SysState).tasks ≤ 1 ∧
      (flyCount (⟨true, [⟨.pullOp, .finished⟩, ⟨.commitOp, .critical 2⟩]⟩ :
        SysState).tasks = 1 →
        (⟨true, [⟨.pullOp, .finished⟩, ⟨.commitOp, .critical 2⟩]⟩ : SysState).locked = true) ∧
      ((⟨true, [⟨.pullOp, .finished⟩, ⟨.commitOp, .critical 2⟩]⟩ : SysState).locked = false →
        flyCount (⟨true, [⟨.pullOp, .finished⟩, ⟨.commitOp, .critical 2⟩]⟩ :
          SysState).tasks = 0)) := by
  apply lock_mutual_exclusion
  -- init → spawn pull → spawn commit → pull acquires → pull exits → commit acquires
  have s1 : LockStep initSys ⟨false, [⟨.pullOp, .entry⟩]⟩ :=
    LockStep.spawn false [] .pullOp
  have s2 : LockStep ⟨false, [⟨.pullOp, .entry⟩]⟩
      ⟨false, [⟨.pullOp, .entry⟩, ⟨.commitOp, .entry⟩]⟩ :=
    LockStep.spawn false [⟨.pullOp, .entry⟩] .commitOp
  have s3 : LockStep ⟨false, [⟨.pullOp, .entry⟩, ⟨.commitOp, .entry⟩]⟩
      ⟨true, [⟨.pullOp, .critical 1⟩, ⟨.commitOp, .entry⟩]⟩ :=
    LockStep.acquire [] [⟨.commitOp, .entry⟩] .pullOp 1
  have s4 : LockStep ⟨true, [⟨.pullOp, .critical 1⟩, ⟨.commitOp, .entry⟩]⟩
      ⟨false, [⟨.pullOp, .finished⟩, ⟨.commitOp, .entry⟩]⟩ :=
    LockStep.exitCritical true [] [⟨.commitOp, .entry⟩] .pullOp 1
  have s5 : LockStep ⟨false, [⟨.pullOp, .finished⟩, ⟨.commitOp, .entry⟩]⟩
      ⟨true, [⟨.pullOp, .finished⟩, ⟨.commitOp, .critical 2⟩]⟩ :=
    LockStep.acquire [⟨.pullOp, .finished⟩] [] .commitOp 2
  exact Relation.ReflTransGen.tail (Relation.ReflTransGen.tail (Relation.ReflTransGen.tail
    (Relation.ReflTransGen.tail (Relation.ReflTransGen.tail Relation.ReflTransGen.refl s1)
      s2) s3) s4) s5

/-! ## Flush on shutdown (`OperationCoordinator.flushOnClose`)

`flushOnClose` delegates its push to `gitService.push()`; on the desktop
backend that is `DesktopGitService.push`, i.e. the `pushWithRetry` cascade.
The awaited promise resolves after the first underlying `repository.push()`
attempt (success, or failure with a retry timer scheduled), so the flush path
itself awaits exactly one attempt — but a failed first attempt schedules a
background retry rather than abandoning the push. -/

theorem pushGo_succ_fail (o : Nat → Bool) (a r : Nat) (h : o a = false) :
    pushGo o a (r + 1) =
      ⟨(pushGo o (a + 1) r).calls + 1,
        BASE_RETRY_DELAY * 2 ^ a :: (pushGo o (a + 1) r).delays,
        (pushGo o (a + 1) r).warned⟩ := by
  simp [pushGo, h]

theorem pushGo_calls_pos (o : Nat → Bool) (a r : Nat) : 1 ≤ (pushGo o a r).calls := by
  cases r with
  | zero => cases h : o a <;> simp [pushGo, h]
  | succ r =>
    cases h : o a with
    | true => simp [pushGo, h]
    | false => rw [pushGo_succ_fail o a r h]; dsimp only; omega

theorem pushWithRetry_first_fail_schedules_retry (o : Nat → Bool) (h0 : o 0 = false) :
    2 ≤ (pushWithRetry o 0).calls := by
  have hpos := pushGo_calls_pos o (0 + 1) 2
  show 2 ≤ (pushGo o 0 (2 + 1)).calls
  rw [pushGo_succ_fail o 0 2 h0]
  dsimp only
  omega

theorem pushWithRetry_first_ok_single (o : Nat → Bool) (h0 : o 0 = true) :
    (pushWithRetry o 0).calls = 1 := by
  show (pushGo o 0 (2 + 1)).calls = 1
  simp [pushGo, h0]

/-- Observable outcome of one `flushOnClose` run.  `pushSim` records the whole
cascade of underlying `repository.push()` invocations that the call to
`gitService.push()` sets in motion (including retries fired later by the
scheduled timers); the flush path itself awaits only the first of them. -/
structure FlushTrace where
  debounceCancelled : Bool
  commitAttempted : Bool
  pushSim : PushSim
  threw : Bool
  lockedAtEnd : Bool
deriving DecidableEq

/-- `flushOnClose` on the desktop backend: no-op unless enabled and
commit-on-close is configured; cancel the debounce; recompute matching
changes and no-op if none; else take the lock, mark the commit self-originated,
stage+commit, then (auto-push only) `gitService.push()` with any rejection
caught; the outer catch swallows commit errors and the `finally` releases the
lock, so no exception ever propagates. -/
def flushOnClose (c : Coord) (commitOk : Bool) (pushOutcome : Nat → Bool) : FlushTrace :=
  if !c.config.enabled || !c.config.commitOnClose then
    ⟨false, false, ⟨0, [], false⟩, false, c.locked⟩
  else if c.git.matchingChanges.isEmpty then
    ⟨true, false, ⟨0, [], false⟩, false, c.locked⟩
  else if !commitOk then
    ⟨true, true, ⟨0, [], false⟩, false, false⟩
  else if c.config.autoPush then
    ⟨true, true, desktopPush c.git.hasRemote pushOutcome, false, false⟩
  else
    ⟨true, true, ⟨0, [], false⟩, false, false⟩

/-- C6 counterexample.  A desktop flush with auto-push where the push fails:
the claim says exactly one push attempt is made and the push is never retried,
but `gitService.push()` is `pushWithRetry`, which schedules retries — with
every attempt failing the underlying push ends up invoked 4 times. -/
theorem flush_push_retries_counterexample :
    (flushOnClose
      { config :=
          { enabled := true, commitDelay := 30000, autoPush := true, pullOnStartup := true,
            pullAfterIdle := true, idleThreshold := 300000, filePattern := "**/*",
            excludeBranches := [], commitMessageFormat := "GitNote: {timestamp}",
            commitOnClose := true, showCountdown := true, conflictBehavior := .pause }
        state := .watching, locked := false, supportsFullGit := true
        git :=
          { hasRemote := true, currentBranch := some "main", hasConflicts := false,
            isRebasing := false, matchingChanges := ["notes.md"] } }
      true (fun _ => false)).pushSim.calls = 4 ∧
    ¬ (flushOnClose
      { config :=
          { enabled := true, commitDelay := 30000, autoPush := true, pullOnStartup := true,
            pullAfterIdle := true, idleThreshold := 300000, filePattern := "**/*",
            excludeBranches := [], commitMessageFormat := "GitNote: {timestamp}",
            commitOnClose := true, showCountdown := true, conflictBehavior := .pause }
        state := .watching, locked := false, supportsFullGit := true
        git :=
          { hasRemote := true, currentBranch := some "main", hasConflicts := false,
            isRebasing := false, matchingChanges := ["notes.md"] } }
      true (fun _ => false)).pushSim.calls = 1 := by
  constructor
  · decide
  · decide

/-- C6 amended.  When enabled and commit-on-close is configured, `flushOnClose`
cancels the debounce, recomputes matching changes, and if any exist stages and
commits them and (when auto-push is enabled and a remote exists) invokes the
backend push, awaiting only its first attempt; a failing first attempt is
swallowed but schedules a background retry cascade (so the push is not
abandoned), a succeeding first attempt means exactly one push; no exception
ever propagates and the lock is released. -/
theorem flush_commit_one_awaited_push (c : Coord) (commitOk : Bool)
    (pushOutcome : Nat → Bool) (hen : c.config.enabled = true)
    (hcc : c.config.commitOnClose = true) (hch : c.git.matchingChanges.isEmpty = false) :
    (flushOnClose c commitOk pushOutcome).threw = false ∧
      (flushOnClose c commitOk pushOutcome).debounceCancelled = true ∧
      (flushOnClose c commitOk pushOutcome).commitAttempted = true ∧
      (flushOnClose c commitOk pushOutcome).lockedAtEnd = false ∧
      (commitOk = true → c.config.autoPush = true → c.git.hasRemote = true →
        (1 ≤ (flushOnClose c commitOk pushOutcome).pushSim.calls ∧
          (pushOutcome 0 = false →
            2 ≤ (flushOnClose c commitOk pushOutcome).pushSim.calls) ∧
          (pushOutcome 0 = true →
            (flushOnClose c commitOk pushOutcome).pushSim.calls = 1))) := by
  cases commitOk with
  | false =>
    refine ⟨?_, ?_, ?_, ?_, ?_⟩ <;>
      simp [flushOnClose, hen, hcc, hch]
  | true =>
    by_cases hap : c.config.autoPush = true
    · have hflush : flushOnClose c true pushOutcome =
          ⟨true, true, desktopPush c.git.hasRemote pushOutcome, false, false⟩ := by
        simp [flushOnClose, hen, hcc, hch, hap]
      refine ⟨by simp [hflush], by simp [hflush], by simp [hflush], by simp [hflush], ?_⟩
      intro _ _ hr
      rw [hflush]
      simp only [desktopPush, hr, if_true]
      exact ⟨Nat.le_trans (by omega) (pushGo_calls_pos pushOutcome 0 3),
        fun h0 => pushWithRetry_first_fail_schedules_retry pushOutcome h0,
        fun h0 => pushWithRetry_first_ok_single pushOutcome h0⟩
    · refine ⟨?_, ?_, ?_, ?_, ?_⟩ <;>
        simp [flushOnClose, hen, hcc, hch, hap]

theorem flush_commit_one_awaited_push_witness :
    (let c : Coord :=
      { config :=
          { enabled := true, commitDelay := 30000, autoPush := true, pullOnStartup := true,
            pullAfterIdle := true, idleThreshold := 300000, filePattern := "**/*",
            excludeBranches := [], commitMessageFormat := "GitNote: {timestamp}",
            commitOnClose := true, showCountdown := true, conflictBehavior := .pause }
        state := .watching, locked := false, supportsFullGit := true
        git :=
          { hasRemote := true, currentBranch := some "main", hasConflicts := false,
            isRebasing := false, matchingChanges := ["notes.md"] } }
    (flushOnClose c true (fun _ => true)).threw = false ∧
      (flushOnClose c true (fun _ => true)).debounceCancelled = true ∧
      (flushOnClose c true (fun _ => true)).commitAttempted = true ∧
      (flushOnClose c true (fun _ => true)).lockedAtEnd = false ∧
      (true = true → c.config.autoPush = true → c.git.hasRemote = true →
        (1 ≤ (flushOnClose c true (fun _ => true)).pushSim.calls ∧
          ((fun (_ : Nat) => true) 0 = false →
            2 ≤ (flushOnClose c true (fun _ => true)).pushSim.calls) ∧
          ((fun (_ : Nat) => true) 0 = true →
            (flushOnClose c true (fun _ => true)).pushSim.calls = 1)))) :=
  flush_commit_one_awaited_push _ true (fun _ => true) rfl rfl rfl

/-! ## Pull on window-focus regain
(`OperationCoordinator.onWindowStateChanged` / `executePullOnFocus`) -/

def MIN_FOCUS_INTERVAL : Nat := 10000

/-- Coordinator fields read by the focus handler that do not change during a
focus-event trace. -/
structure FocusCtx where
  pullAfterIdle : Bool
  idleThreshold : Nat
  state : CoordinatorState
  locked : Bool
  hasRemote : Bool
deriving DecidableEq

/-- The activity clock: last-user-activity and last-window-focus-regain
timestamps. -/
structure FocusSt where
  lastActivityTime : Nat
  lastWindowFocusTime : Nat
deriving DecidableEq

/-- One `onDidChangeWindowState` event: return the updated clock and whether a
pull was triggered.  Mirrors the source order: no-op unless pull-after-idle;
no-op on focus loss; compute idle duration and time since last focus;
**always** set `lastWindowFocusTime := now`; skip when the previous focus
regain was under `MIN_FOCUS_INTERVAL` ago; if idle exceeds the threshold,
reset the activity clock and run `executePullOnFocus`, which skips when
locked, when the state is neither `watching` nor `idle`, or without a remote,
and otherwise pulls. -/
def onWindowStateChanged (ctx : FocusCtx) (fs : FocusSt) (focused : Bool) (now : Nat) :
    FocusSt × Bool :=
  if !ctx.pullAfterIdle then (fs, false)
  else if !focused then (fs, false)
  else
    let idleDuration := now - fs.lastActivityTime
    let timeSinceLastFocus := now - fs.lastWindowFocusTime
    let fs₁ : FocusSt := { fs with lastWindowFocusTime := now }
    if timeSinceLastFocus < MIN_FOCUS_INTERVAL then (fs₁, false)
    else if ctx.idleThreshold ≤ idleDuration then
      let fs₂ : FocusSt := { fs₁ with lastActivityTime := now }
      if ctx.locked then (fs₂, false)
      else if ctx.state ≠ CoordinatorState.watching ∧ ctx.state ≠ CoordinatorState.idle then
        (fs₂, false)
      else if !ctx.hasRemote then (fs₂, false)
      else (fs₂, true)
    else (fs₁, false)

/-- Run a trace of (time, focused) window-state events, collecting the times
of the triggered pulls. -/
def runFocus (ctx : FocusCtx) : FocusSt → List (Nat × Bool) → FocusSt × List Nat
  | fs, [] => (fs, [])
  | fs, (t, f) :: rest =>
    let p := onWindowStateChanged ctx fs f t
    let q := runFocus ctx p.1 rest
    (q.1, (if p.2 then [t] else []) ++ q.2)

/-- Modelled from the claim's words, for comparison with `runFocus`: a pull
fires on a focus regain iff pull-after-idle is on, the idle duration exceeds
the threshold, at least `MIN_FOCUS_INTERVAL` has passed **since the last
focus-triggered pull**, the state is `watching`/`idle`, the lock is free and a
remote exists; a firing pull resets the activity clock. -/
def claimFocusRun (ctx : FocusCtx) : Nat → Option Nat → List (Nat × Bool) → List Nat
  | _, _, [] => []
  | la, lp, (t, f) :: rest =>
    let armed : Bool := match lp with
      | none => true
      | some p => decide (MIN_FOCUS_INTERVAL ≤ t - p)
    if ctx.pullAfterIdle = true ∧ f = true ∧ armed = true ∧ ctx.idleThreshold ≤ t - la ∧
        ctx.locked = false ∧
        (ctx.state = CoordinatorState.watching ∨ ctx.state = CoordinatorState.idle) ∧
        ctx.hasRemote = true then
      t :: claimFocusRun ctx t (some t) rest
    else claimFocusRun ctx la lp rest

/-- C7 counterexample.  Focus regains at 11s, 16s and 24s (idle threshold 3s,
activity and focus clocks starting at 0, state `watching`, unlocked, remote
present): the code pulls only at 11s — at 24s only 8s have passed since the
16s focus regain, because `lastWindowFocusTime` is updated on *every* focus
regain, not only on focus-triggered pulls — while the claim's reading (10s
since the last focus-triggered pull, 13s ago at 11s) also pulls at 24s. -/
theorem focus_rearm_counterexample :
    (runFocus ⟨true, 3000, .watching, false, true⟩ ⟨0, 0⟩
        [(11000, true), (16000, true), (24000, true)]).2 = [11000] ∧
      claimFocusRun ⟨true, 3000, .watching, false, true⟩ 0 none
        [(11000, true), (16000, true), (24000, true)] = [11000, 24000] ∧
      (runFocus ⟨true, 3000, .watching, false, true⟩ ⟨0, 0⟩
          [(11000, true), (16000, true), (24000, true)]).2 ≠
        claimFocusRun ⟨true, 3000, .watching, false, true⟩ 0 none
          [(11000, true), (16000, true), (24000, true)] := by
  refine ⟨by decide, by decide, by decide⟩

/-- C7 amended.  On a window-state event, a pull is triggered iff
pull-after-idle is enabled, the window is regaining focus, at least 10 seconds
have passed since the **previous focus regain processed by the handler** (the
focus timestamp updates on every such regain, whether or not a pull fires),
the idle duration meets the configured threshold, the lock is not held, the
coordinator is `watching` or `idle`, and a remote exists; whenever the pull
fires, the activity clock is reset to the event time so the change-detected
path does not also trigger a redundant pull. -/
theorem focus_pull_trigger_characterization (ctx : FocusCtx) (fs : FocusSt) (focused : Bool)
    (now : Nat) :
    ((onWindowStateChanged ctx fs focused now).2 = true ↔
      (ctx.pullAfterIdle = true ∧ focused = true ∧
        MIN_FOCUS_INTERVAL ≤ now - fs.lastWindowFocusTime ∧
        ctx.idleThreshold ≤ now - fs.lastActivityTime ∧
        ctx.locked = false ∧
        (ctx.state = CoordinatorState.watching ∨ ctx.state = CoordinatorState.idle) ∧
        ctx.hasRemote = true)) ∧
      ((onWindowStateChanged ctx fs focused now).2 = true →
        (onWindowStateChanged ctx fs focused now).1.lastActivityTime = now) := by
  refine ⟨⟨fun htrig => ?_, fun hcond => ?_⟩, fun htrig => ?_⟩
  · simp only [onWindowStateChanged] at htrig
    split_ifs at htrig with h1 h2 h3 h4 h5 h6 h7 <;> try simp at htrig
    exact ⟨by simpa using h1, by simpa using h2, by omega, h4, by simpa using h5,
      by tauto, by simpa using h7⟩
  · obtain ⟨hA, hB, hC, hD, hE, hF, hG⟩ := hcond
    simp only [onWindowStateChanged]
    split_ifs with h1 h2 h3 h4 h5 h6 h7 <;>
      first
        | rfl
        | (exfalso; omega)
        | (exfalso; simp_all; done)
        | (exfalso; tauto)
  · simp only [onWindowStateChanged] at htrig ⊢
    split_ifs at htrig ⊢ <;> first | rfl | simp at htrig

theorem focus_pull_trigger_characterization_witness :
    (((onWindowStateChanged ⟨true, 3000, .watching, false, true⟩ ⟨0, 0⟩ true 11000).2 = true ↔
      ((true : Bool) = true ∧ (true : Bool) = true ∧
        MIN_FOCUS_INTERVAL ≤ 11000 - (⟨0, 0⟩ : FocusSt).lastWindowFocusTime ∧
        (⟨true, 3000, .watching, false, true⟩ : FocusCtx).idleThreshold ≤
          11000 - (⟨0, 0⟩ : FocusSt).lastActivityTime ∧
        (false : Bool) = false ∧
        ((⟨true, 3000, .watching, false, true⟩ : FocusCtx).state = CoordinatorState.watching ∨
          (⟨true, 3000, .watching, false, true⟩ : FocusCtx).state = CoordinatorState.idle) ∧
        (true : Bool) = true)) ∧
      ((onWindowStateChanged ⟨true, 3000, .watching, false, true⟩ ⟨0, 0⟩ true 11000).2 = true →
        (onWindowStateChanged ⟨true, 3000, .watching, false, true⟩
            ⟨0, 0⟩ true 11000).1.lastActivityTime = 11000)) :=
  focus_pull_trigger_characterization ⟨true, 3000, .watching, false, true⟩ ⟨0, 0⟩ true 11000

/-! ## Commit message construction
(`formatCommitMessage` in src/utils/patterns.ts, used by `stageAndCommit`) -/

/-- Replace every non-overlapping occurrence of `pat` left to right, on
character lists.  The fuel argument (instantiated with `s.length + 1`, always
sufficient since each step consumes at least one character of `s`) keeps the
recursion structural. -/
def replaceAllGo (pat repl : List Char) : Nat → List Char → List Char
  | _, [] => []
  | 0, s => s
  | fuel + 1, c :: rest =>
    if pat.isPrefixOf (c :: rest) then
      repl ++ replaceAllGo pat repl fuel ((c :: rest).drop pat.length)
    else
      c :: replaceAllGo pat repl fuel rest

/-- JS `String.prototype.replace` with a global literal pattern: replace every
non-overlapping occurrence left to right (the source only uses non-empty
patterns; an empty pattern is returned unchanged). -/
def replaceAll (s pat repl : String) : String :=
  if pat.isEmpty then s
  else ⟨replaceAllGo pat.toList repl.toList (s.toList.length + 1) s.toList⟩

/-- The characters before the first occurrence of `ch`, i.e.
`split(ch)[0]`. -/
def takeUntilChar (ch : Char) : List Char → List Char
  | [] => []
  | c :: rest => if c = ch then [] else c :: takeUntilChar ch rest

/-- `toISOString().split("T")[0]`: the date portion of the ISO timestamp. -/
def isoDatePart (iso : String) : String :=
  ⟨takeUntilChar 'T' iso.toList⟩

/-- `files.join(", ")`. -/
def joinWith (sep : String) : List String → String
  | [] => ""
  | [x] => x
  | x :: rest => x ++ sep ++ joinWith sep rest

/-- `formatCommitMessage(format, branch, files)`.  `isoNow` stands for
`new Date().toISOString()` and `timeNow` for `toTimeString().split(" ")[0]`
(the local `HH:MM:SS`); the `{date}` substitution is the part of the ISO
string before `T`, exactly `toISOString().split("T")[0]`.  Substitutions are
applied in source order: timestamp, date, time, branch, files, count. -/
def formatCommitMessage (format branch : String) (files : List String)
    (isoNow timeNow : String) : String :=
  replaceAll
    (replaceAll
      (replaceAll
        (replaceAll
          (replaceAll
            (replaceAll format "{timestamp}" isoNow)
            "{date}" (isoDatePart isoNow))
          "{time}" timeNow)
        "{branch}" branch)
      "{files}" (joinWith ", " files))
    "{count}" (toString files.length)

/-- `DesktopGitService.stageAndCommit` builds its message with
`formatCommitMessage(config.commitMessageFormat, currentBranch ?? "unknown",
relative file paths)`. -/
def stageAndCommitMessage (cfg : GitNoteConfig) (currentBranch : Option String)
    (files : List String) (isoNow timeNow : String) : String :=
  formatCommitMessage cfg.commitMessageFormat (currentBranch.getD "unknown") files
    isoNow timeNow

/-- C9.  The commit message is the configured template with `{timestamp}`
replaced by the full ISO-8601 timestamp, `{date}` by its date portion,
`{time}` by the local HH:MM:SS time, `{branch}` by the current branch,
`{files}` by the comma-joined relative paths and `{count}` by the file count —
checked on a template exercising every placeholder and on each placeholder in
isolation. -/
theorem commit_message_placeholder_substitution :
    stageAndCommitMessage
        { enabled := true, commitDelay := 30000, autoPush := true, pullOnStartup := true,
          pullAfterIdle := true, idleThreshold := 300000, filePattern := "**/*",
          excludeBranches := [],
          commitMessageFormat :=
            "GitNote: {timestamp} | {date} | {time} | {branch} | {files} | {count}",
          commitOnClose := true, showCountdown := true, conflictBehavior := .pause }
        (some "main") ["notes/a.md", "b.md"] "2024-05-06T07:08:09.123Z" "16:08:09" =
      "GitNote: 2024-05-06T07:08:09.123Z | 2024-05-06 | 16:08:09 | main | notes/a.md, b.md | 2" ∧
    formatCommitMessage "{timestamp}" "main" ["notes/a.md", "b.md"]
        "2024-05-06T07:08:09.123Z" "16:08:09" = "2024-05-06T07:08:09.123Z" ∧
    formatCommitMessage "{date}" "main" ["notes/a.md", "b.md"]
        "2024-05-06T07:08:09.123Z" "16:08:09" = "2024-05-06" ∧
    formatCommitMessage "{time}" "main" ["notes/a.md", "b.md"]
        "2024-05-06T07:08:09.123Z" "16:08:09" = "16:08:09" ∧
    formatCommitMessage "{branch}" "main" ["notes/a.md", "b.md"]
        "2024-05-06T07:08:09.123Z" "16:08:09" = "main" ∧
    formatCommitMessage "{files}" "main" ["notes/a.md", "b.md"]
        "2024-05-06T07:08:09.123Z" "16:08:09" = "notes/a.md, b.md" ∧
    formatCommitMessage "{count}" "main" ["notes/a.md", "b.md"]
        "2024-05-06T07:08:09.123Z" "16:08:09" = "2" ∧
    formatCommitMessage "GitNote: {timestamp}" "main" []
        "2024-05-06T07:08:09.123Z" "16:08:09" = "GitNote: 2024-05-06T07:08:09.123Z" := by
  refine ⟨by decide, by decide, by decide, by decide, by decide, by decide, by decide,
    by decide⟩

end GitNote
